import Mathlib

/-!
CEDHTierList proxy server: the `/api/tournaments` pipeline.

A shallow embedding of `src/server.js` (the handler registered with
`app.get('/api/tournaments', ...)`) and theorems about it.

Modelling conventions.

* A JavaScript value as produced by `JSON.parse`, plus `undefined` (the result
  of reading a missing property), is a `JVal`.  Numbers are restricted to
  integers (epoch seconds, counts, HTTP codes); an object is the list of its own
  properties in the order `Object.keys` enumerates them.
* A computation that can throw is a `Js α := Except Stop α`.  `Stop.thrown m` is
  a JavaScript exception whose `message` is `m`.  `Stop.outOfModel` marks the few
  places where JavaScript would coerce a non-numeric value to a number by
  parsing text (`ToNumber` on strings, arrays and objects); the embedding gives
  no result there instead of guessing one.
* The in-place assignment `tournament.standings = ...` is made explicit by
  state passing: `transformRecord` returns the raw record as it is after the
  call together with the new record.
* Console logging is dropped, except that every property read performed while
  building a log line is kept, because such a read can throw.
* The two readings of the clock, `Date.now()` on line 37 and on line 119, are
  two arguments of the handler; the upstream call is an argument too, given as
  what it yields when it is made.
-/

namespace CEDHTierList

/-! ## Values -/

/-- JSON-shaped JavaScript values. -/
inductive JVal where
  | undefined
  | null
  | bool (b : Bool)
  | num (n : Int)
  | str (s : String)
  | arr (items : List JVal)
  | obj (fields : List (String × JVal))

instance : Inhabited JVal := ⟨JVal.undefined⟩

/-- Why a computation stopped without a value. -/
inductive Stop where
  | thrown (message : String)
  | outOfModel

/-- Computations that may throw. -/
abbrev Js (α : Type) := Except Stop α

/-- JavaScript `ToBoolean`. -/
def truthy : JVal → Bool
  | .undefined => false
  | .null => false
  | .bool b => b
  | .num n => n != 0
  | .str s => s != ""
  | .arr _ => true
  | .obj _ => true

/-- Whether a value is `null` or `undefined`. -/
def nullish : JVal → Bool
  | .undefined => true
  | .null => true
  | _ => false

/-- `Array.isArray`. -/
def isArray : JVal → Bool
  | .arr _ => true
  | _ => false

/-- Own property lookup in an object's property list. -/
def lookup (fields : List (String × JVal)) (key : String) : JVal :=
  match fields with
  | [] => .undefined
  | (k, v) :: rest => if k = key then v else lookup rest key

/-- Property assignment on an object's property list: an existing key keeps
its position and gets the new value, a new key is appended. -/
def setProp (fields : List (String × JVal)) (key : String) (v : JVal) :
    List (String × JVal) :=
  match fields with
  | [] => [(key, v)]
  | (k, w) :: rest => if k = key then (k, v) :: rest else (k, w) :: setProp rest key v

/-- Value of a decimal digit character. -/
def digitValue (c : Char) : Option Nat :=
  if 48 ≤ c.toNat ∧ c.toNat ≤ 57 then some (c.toNat - 48) else none

/-- Reads a run of decimal digits, most significant first. -/
def parseDigits : List Char → Nat → Option Nat
  | [], acc => some acc
  | c :: cs, acc =>
    match digitValue c with
    | some d => parseDigits cs (acc * 10 + d)
    | none => none

/-- The array index a property key denotes, if it is a canonical one
(`"0"`, `"1"`, ..., no leading zero). -/
def arrayIndex (key : String) : Option Nat :=
  match key.data with
  | [] => none
  | [c] => digitValue c
  | c :: cs => if c = '0' then none else parseDigits (c :: cs) 0

/-- Length of a string in UTF-16 code units, as `String.prototype.length`. -/
def utf16Length (s : String) : Nat :=
  (s.data.map (fun c => if c.toNat < 65536 then 1 else 2)).sum

/-- The indexed own properties of an array, `("0", x₀), ("1", x₁), ...`. -/
def indexed (items : List JVal) (start : Nat) : List (String × JVal) :=
  match items with
  | [] => []
  | x :: rest => (toString start, x) :: indexed rest (start + 1)

/-- The own enumerable properties of a value, in enumeration order: what
`Object.keys` lists and what an object spread copies.  A string is indexed
character by character (exact for strings without astral characters). -/
def ownProps : JVal → List (String × JVal)
  | .obj fields => fields
  | .arr items => indexed items 0
  | .str s => indexed (s.data.map (fun c => JVal.str (String.singleton c))) 0
  | _ => []

/-- `Object.keys(v)` for a value that is neither `null` nor `undefined`. -/
def objectKeys (v : JVal) : List JVal :=
  (ownProps v).map (fun kv => JVal.str kv.1)

/-- Property read `v.key` (also `v[i]` with `key` the decimal index).  Reading
from `null` or `undefined` throws a `TypeError`. -/
def getProp (v : JVal) (key : String) : Js JVal :=
  match v with
  | .undefined =>
    throw (.thrown ("Cannot read properties of undefined (reading '" ++ key ++ "')"))
  | .null =>
    throw (.thrown ("Cannot read properties of null (reading '" ++ key ++ "')"))
  | .obj fields => pure (lookup fields key)
  | .arr items =>
    if key = "length" then pure (.num items.length)
    else match arrayIndex key with
      | some i => pure (items.getD i .undefined)
      | none => pure .undefined
  | .str s =>
    if key = "length" then pure (.num (utf16Length s))
    else match arrayIndex key with
      | some i => pure (((s.data.map (fun c => JVal.str (String.singleton c)))).getD i .undefined)
      | none => pure .undefined
  | _ => pure .undefined

/-- Optional chaining `v?.key`. -/
def getPropOpt (v : JVal) (key : String) : JVal :=
  match v with
  | .undefined => .undefined
  | .null => .undefined
  | w => match getProp w key with
    | .ok x => x
    | .error _ => .undefined

/-- `ToNumber`, where the result is an integer obtained without parsing text. -/
def toNumber : JVal → Js Int
  | .null => pure 0
  | .bool b => pure (if b then 1 else 0)
  | .num n => pure n
  | _ => throw .outOfModel

/-- `String.prototype.toLowerCase` (letters outside ASCII are left as they are;
none of them lowers to a letter of `cedh`). -/
def toLowerCase (s : String) : String :=
  String.mk (s.data.map Char.toLower)

/-- Whether `pat` occurs as a contiguous block of `text`. -/
def includesChars (text pat : List Char) : Bool :=
  match text with
  | [] => pat.isEmpty
  | c :: cs => pat.isPrefixOf (c :: cs) || includesChars cs pat

/-- `String.prototype.includes`. -/
def includes (s pat : String) : Bool :=
  includesChars s.data pat.data

/-- The operator `a || b` on values. -/
def orElse (a b : JVal) : JVal :=
  if truthy a then a else b

/-- Runs `f` over a list from left to right, as `Array.prototype.map` with a
callback that may throw. -/
def mapJs {α β : Type} (f : α → Js β) : List α → Js (List β)
  | [] => pure []
  | x :: xs => do
    let y ← f x
    let ys ← mapJs f xs
    pure (y :: ys)

/-- Runs a predicate over a list, as `Array.prototype.filter` with a callback
that may throw. -/
def filterJs {α : Type} (p : α → Js Bool) : List α → Js (List α)
  | [] => pure []
  | x :: xs => do
    let b ← p x
    let ys ← filterJs p xs
    pure (if b then x :: ys else ys)

/-- Inserts `a` into a list ordered by the comparator, before the first
element it does not have to follow. -/
def insertJs {α : Type} (cmp : α → α → Js Int) (a : α) : List α → Js (List α)
  | [] => pure [a]
  | b :: rest => do
    let c ← cmp a b
    if c ≤ 0 then pure (a :: b :: rest)
    else do
      let tail ← insertJs cmp a rest
      pure (b :: tail)

/-- The sort `Array.prototype.sort(cmp)`, which is stable: an element stays
before a later one unless the comparator is positive on the pair.  For a
consistent comparator, as `dateB - dateA` on numbers is, the language fixes the
result, so the particular stable algorithm does not matter; insertion is used
here. -/
def sortJs {α : Type} (cmp : α → α → Js Int) : List α → Js (List α)
  | [] => pure []
  | a :: rest => do
    let sorted ← sortJs cmp rest
    insertJs cmp a sorted

/-! ## Transformer (server.js, lines 72 to 112) -/

/-- The `commanders` computed for one standing (lines 81 to 96). -/
def commandersOf (standing : JVal) : Js (List JVal) := do
  let deckObj ← getProp standing "deckObj"
  if truthy deckObj then
    let upper ← getProp deckObj "Commanders"
    if truthy upper then pure ((objectKeys upper).take 2)
    else
      let lower ← getProp deckObj "commanders"
      if truthy lower then pure ((objectKeys lower).take 2)
      else
        let single ← getProp deckObj "Commander"
        if truthy single then pure [single]
        else
          let name ← getProp deckObj "name"
          if truthy name then pure [name] else pure []
  else pure []

/-- The callback of `tournament.standings.map`: a copy of the standing with the
`commanders` property set (lines 80 to 101). -/
def transformStanding (standing : JVal) : Js JVal := do
  let commanders ← commandersOf standing
  pure (.obj (setProp (ownProps standing) "commanders" (.arr commanders)))

/-- The items of an array, `[]` for any other value. -/
def arrayItems : JVal → List JVal
  | .arr items => items
  | _ => []

/-- The assignment `target.key = v` on an object.  It is only performed on a
record that has an array under `standings`, and only an object has one. -/
def assignProp (target : JVal) (key : String) (v : JVal) : JVal :=
  match target with
  | .obj fields => .obj (setProp fields key v)
  | other => other

/-- The callback of `data.map` (lines 73 to 111).  The first component is the
raw record as the call leaves it, the second the record the call returns. -/
def transformRecord (tournament : JVal) : Js (JVal × JVal) := do
  let standings ← getProp tournament "standings"
  let participantCount : Int :=
    if truthy standings && isArray standings then (arrayItems standings).length else 0
  let tournament ←
    if truthy standings && isArray standings then do
      let enriched ← mapJs transformStanding (arrayItems standings)
      pure (assignProp tournament "standings" (.arr enriched))
    else pure tournament
  let data ← getProp tournament "data"
  pure (tournament,
    .obj (setProp (ownProps tournament) "data"
      (.obj (setProp (ownProps data) "participants" (.num participantCount)))))

/-- The transformer: `data.map(...)` on an array.  The first component holds the
raw records as the call leaves them, the second is the new array. -/
def transform (data : List JVal) : Js (List JVal × List JVal) := do
  let pairs ← mapJs transformRecord data
  pure (pairs.map Prod.fst, pairs.map Prod.snd)

/-! ## Filter and sort (server.js, lines 119 to 134) -/

/-- The value `tournament.data?.name || tournament.tournamentName || ''`. -/
def nameOf (tournament : JVal) : Js JVal := do
  let data ← getProp tournament "data"
  let legacy ← getProp tournament "tournamentName"
  pure (orElse (orElse (getPropOpt data "name") legacy) (.str ""))

/-- The value `tournament.data?.startDate || tournament.startDate || 0`. -/
def startDateOf (tournament : JVal) : Js JVal := do
  let data ← getProp tournament "data"
  let legacy ← getProp tournament "startDate"
  pure (orElse (orElse (getPropOpt data "startDate") legacy) (.num 0))

/-- The method call `v.toLowerCase()` on a value that is not nullish. -/
def callToLowerCase : JVal → Js String
  | .str s => pure (toLowerCase s)
  | _ => throw (.thrown "(intermediate value).toLowerCase is not a function")

/-- The start time of a record as a number. -/
def startTime (tournament : JVal) : Js Int := do
  let v ← startDateOf tournament
  toNumber v

/-- The callback of `data.filter` (lines 121 to 126). -/
def keep (nowInSeconds : Int) (tournament : JVal) : Js Bool := do
  let name ← nameOf tournament
  let tournamentName ← callToLowerCase name
  let startDate ← startDateOf tournament
  if includes tournamentName "cedh" then do
    let n ← toNumber startDate
    pure (decide (n ≤ nowInSeconds))
  else pure false

/-- The comparator of `data.sort` (lines 129 to 133): `dateB - dateA`. -/
def compareDates (a b : JVal) : Js Int := do
  let dateA ← startDateOf a
  let dateB ← startDateOf b
  let nb ← toNumber dateB
  let na ← toNumber dateA
  pure (nb - na)

/-- The Filter/Sort stage on an array. -/
def filterSort (nowInSeconds : Int) (data : List JVal) : Js (List JVal) := do
  let kept ← filterJs (keep nowInSeconds) data
  sortJs compareDates kept

/-! ## Request handler (server.js, lines 34 to 149) -/

/-- The comparison `v > 0`. -/
def greaterThanZero : JVal → Js Bool
  | .undefined => pure false
  | v => do
    let n ← toNumber v
    pure (decide (0 < n))

/-- The property reads of the guard on line 114. -/
def debugFirstStanding (data : JVal) : Js Unit := do
  let len ← getProp data "length"
  let positive ← greaterThanZero len
  if positive then
    let first ← getProp data "0"
    let standings ← getProp first "standings"
    if truthy standings then
      let _ ← getProp standings "0"
      pure ()
    else pure ()
  else pure ()

/-- Lines 68 to 136: everything between decoding the body and caching.
`clock` is the value of `Date.now()` on line 119. -/
def processPayload (clock : Int) (payload : JVal) : Js JVal := do
  let _ ← getProp payload "length"
  let data ← match payload with
    | .arr items => do
      let r ← transform items
      pure (JVal.arr r.2)
    | other => pure other
  debugFirstStanding data
  let nowInSeconds := Int.fdiv clock 1000
  let data ← match data with
    | .arr items => do
      let r ← filterSort nowInSeconds items
      pure (JVal.arr r)
    | other => pure other
  let _ ← getProp data "length"
  pure data

/-- The cache slot: the module variables `tournamentCache` and
`cacheTimestamp`. -/
structure CacheState where
  tournamentCache : JVal
  cacheTimestamp : Int

/-- The state at process start. -/
def startState : CacheState := ⟨.null, 0⟩

/-- Five minutes in milliseconds. -/
def CACHE_DURATION : Int := 5 * 60 * 1000

/-- The cache check on line 38:
`tournamentCache && (now - cacheTimestamp) < CACHE_DURATION`. -/
def cacheHit (s : CacheState) (now : Int) : Bool :=
  truthy s.tournamentCache && decide (now - s.cacheTimestamp < CACHE_DURATION)

/-- What the upstream call yields when it is made: a rejected `fetch`, or a
response with its status, the outcome of `response.text()` and the outcome of
`response.json()` (an error message when reading or decoding fails). -/
inductive Upstream where
  | networkError (message : String)
  | response (status : Nat) (text : Except String String) (json : Except String JVal)

/-- The property `response.ok`. -/
def statusOk (status : Nat) : Bool :=
  decide (200 ≤ status) && decide (status < 300)

/-- An HTTP response: status and JSON body. -/
structure Response where
  status : Nat
  body : JVal

/-- The effect of one request: the response sent, the cache slot afterwards
and how many times the upstream client was called. -/
structure Outcome where
  response : Response
  state : CacheState
  upstreamCalls : Nat

/-- Lines 45 to 136: the upstream call and the processing of its result. -/
def fetchAndProcess (clock : Int) (upstream : Upstream) : Js JVal :=
  match upstream with
  | .networkError message => throw (.thrown message)
  | .response status text json =>
    if statusOk status then
      match json with
      | .ok payload => processPayload clock payload
      | .error message => throw (.thrown message)
    else
      match text with
      | .ok errorText =>
        throw (.thrown ("TopDeck API error: " ++ toString status ++ " - " ++ errorText))
      | .error message => throw (.thrown message)

/-- The handler of `GET /api/tournaments`; `now` is `Date.now()` on line 37,
`clock` is `Date.now()` on line 119.  No outcome is given where the embedding
does not determine one. -/
def handler (s : CacheState) (now clock : Int) (upstream : Upstream) : Option Outcome :=
  if cacheHit s now then
    some ⟨⟨200, s.tournamentCache⟩, s, 0⟩
  else
    match fetchAndProcess clock upstream with
    | .ok data => some ⟨⟨200, data⟩, ⟨data, now⟩, 1⟩
    | .error (.thrown message) =>
      some ⟨⟨500, .obj [("error", .str message)]⟩, s, 1⟩
    | .error .outOfModel => none

/-! ## Reading helpers used in the statements -/

/-- The read `record.data.participants`. -/
def participantsOf (record : JVal) : Js JVal := do
  let data ← getProp record "data"
  getProp data "participants"

/-- The participant count as the specification words it: the length of
`standings` when it is a sequence, `0` when it is absent or anything else. -/
def standingsCount (record : JVal) : Int :=
  match getPropOpt record "standings" with
  | .arr items => items.length
  | _ => 0

/-- The commander list as a function of the deck description alone: the
branches of `commandersOf` once the reads, which cannot throw on a truthy deck
description, are resolved. -/
def commandersFrom (deckObj : JVal) : List JVal :=
  if truthy deckObj then
    if truthy (getPropOpt deckObj "Commanders") then
      (objectKeys (getPropOpt deckObj "Commanders")).take 2
    else if truthy (getPropOpt deckObj "commanders") then
      (objectKeys (getPropOpt deckObj "commanders")).take 2
    else if truthy (getPropOpt deckObj "Commander") then
      [getPropOpt deckObj "Commander"]
    else if truthy (getPropOpt deckObj "name") then
      [getPropOpt deckObj "name"]
    else []
  else []

/-! ## Sample data -/

/-- A raw record with two standings and a stale `participants` value. -/
def sampleOpen : JVal :=
  .obj [("data", .obj [("name", .str "Spring CEDH Open"), ("startDate", .num 1000),
          ("participants", .num 99)]),
        ("standings", .arr [.obj [("deckObj", .obj [("Commander", .str "Atraxa")])],
          .obj [("name", .str "Bo")]])]

/-- A raw record without standings. -/
def sampleWeekly : JVal :=
  .obj [("tournamentName", .str "cEDH Weekly"), ("startDate", .num 500)]

/-- The record of the scenario in the specification. -/
def scenarioRecord : JVal :=
  .obj [("data", .obj [("name", .str "Spring CEDH Open"), ("startDate", .num 1000)]),
        ("standings", .arr [.obj [("deckObj", .obj [("Commander", .str "Atraxa")])]])]

/-- What `scenarioRecord` is after the transformer ran on it. -/
def scenarioRecordAfter : JVal :=
  .obj [("data", .obj [("name", .str "Spring CEDH Open"), ("startDate", .num 1000)]),
        ("standings", .arr [.obj [("deckObj", .obj [("Commander", .str "Atraxa")]),
          ("commanders", .arr [.str "Atraxa"])]])]

/-- The record the transformer returns for `scenarioRecord`. -/
def scenarioRecordOut : JVal :=
  .obj [("data", .obj [("name", .str "Spring CEDH Open"), ("startDate", .num 1000),
          ("participants", .num 1)]),
        ("standings", .arr [.obj [("deckObj", .obj [("Commander", .str "Atraxa")]),
          ("commanders", .arr [.str "Atraxa"])]])]

/-! ## Statement helpers for the Filter/Sort stage -/

/-- The name the filter looks at, `data.name`, else `tournamentName`, else
`''`, with `else` the operator `||`: a value that is absent, `null` or empty
counts as not given. -/
def nameValue (t : JVal) : JVal :=
  orElse (orElse (getPropOpt (getPropOpt t "data") "name") (getPropOpt t "tournamentName"))
    (.str "")

/-- The start time the stage looks at, `data.startDate`, else `startDate`,
else `0`, with `else` the operator `||`. -/
def startValue (t : JVal) : JVal :=
  orElse (orElse (getPropOpt (getPropOpt t "data") "startDate") (getPropOpt t "startDate"))
    (.num 0)

/-- A name field as the claims assume it: absent (or otherwise falsy) or a string. -/
def textual (v : JVal) : Bool :=
  match v with
  | .str _ => true
  | w => !truthy w

/-- A start time field as the claims assume it: absent (or otherwise falsy) or a
number. -/
def numeric (v : JVal) : Bool :=
  match v with
  | .num _ => true
  | .undefined => true
  | .null => true
  | .bool b => !b
  | .str s => s == ""
  | _ => false

/-- A record whose names are strings and whose start times are numbers. -/
def wellTyped (t : JVal) : Bool :=
  !nullish t &&
  textual (getPropOpt (getPropOpt t "data") "name") &&
  textual (getPropOpt t "tournamentName") &&
  numeric (getPropOpt (getPropOpt t "data") "startDate") &&
  numeric (getPropOpt t "startDate")

/-- The two predicates of the Filter/Sort stage as the specification words
them: the lowercased name contains `cedh` and the start time is at most the
current time in seconds. -/
def matchesFilter (nowInSeconds : Int) (t : JVal) : Bool :=
  match nameValue t, startValue t with
  | .str name, .num start =>
    includes (toLowerCase name) "cedh" && decide (start ≤ nowInSeconds)
  | _, _ => false

/-- The start time of a record as an integer, `0` where `startTime` has no
value. -/
def startKey (t : JVal) : Int :=
  match startTime t with
  | .ok n => n
  | .error _ => 0

/-- The verdict of the filter callback as a Boolean, `false` where it has no
value. -/
def keepKey (nowInSeconds : Int) (t : JVal) : Bool :=
  match keep nowInSeconds t with
  | .ok b => b
  | .error _ => false

/-- Ordering by start time, latest first. -/
def laterFirst (a b : JVal) : Prop := startKey b ≤ startKey a

instance : DecidableRel laterFirst := fun a b => inferInstanceAs (Decidable (startKey b ≤ startKey a))

instance : IsTotal JVal laterFirst := ⟨fun a b => Int.le_total (startKey b) (startKey a)⟩

instance : IsTrans JVal laterFirst := ⟨fun _ _ _ hab hbc => Int.le_trans hbc hab⟩

/-! ## Statement helpers for the handler -/

/-- A decoded body that is not a sequence and on which no property read of the
handler throws: a number, a boolean, a string, or an object without a `length`
property. -/
def plainPayload : JVal → Bool
  | .bool _ => true
  | .num _ => true
  | .str _ => true
  | .obj fields =>
    match lookup fields "length" with
    | .undefined => true
    | _ => false
  | _ => false

/-- Four records for the Filter/Sort stage: two past cEDH events, one event
without `cedh` in its name, one future cEDH event. -/
def sampleEvents : List JVal :=
  [.obj [("data", .obj [("name", .str "Spring CEDH Open"), ("startDate", .num 1000)])],
   .obj [("data", .obj [("name", .str "Casual Commander Night"), ("startDate", .num 900)])],
   .obj [("tournamentName", .str "cEDH Weekly"), ("startDate", .num 1500)],
   .obj [("data", .obj [("name", .str "CEDH Future"), ("startDate", .num 5000)])]]

/-- A record named `cedh` whose `data.startDate` is `0` and whose top-level
`startDate` is `5000`. -/
def zeroDated : JVal :=
  .obj [("data", .obj [("name", .str "cedh"), ("startDate", .num 0)]),
        ("startDate", .num 5000)]

/-- A decoded body that is an object, not a sequence. -/
def maintenanceNotice : JVal :=
  .obj [("message", .str "maintenance")]

/-! ## Basic facts about values -/

theorem lookup_setProp_same (fields : List (String × JVal)) (key : String) (v : JVal) :
    lookup (setProp fields key v) key = v := by
  induction fields with
  | nil => simp [setProp, lookup]
  | cons kv rest ih =>
    obtain ⟨k, w⟩ := kv
    by_cases h : k = key
    · simp [setProp, lookup, h]
    · simp [setProp, lookup, h, ih]

theorem lookup_setProp_ne (fields : List (String × JVal)) (key other : String) (v : JVal)
    (h : key ≠ other) : lookup (setProp fields key v) other = lookup fields other := by
  induction fields with
  | nil => simp [setProp, lookup, h]
  | cons kv rest ih =>
    obtain ⟨k, w⟩ := kv
    by_cases hk : k = key
    · subst hk
      simp [setProp, lookup, h]
    · by_cases ho : k = other
      · subst ho
        simp [setProp, lookup, hk]
      · simp [setProp, lookup, hk, ho, ih]

theorem setProp_keys (fields : List (String × JVal)) (key : String) (v : JVal)
    (h : lookup fields key ≠ .undefined) :
    (setProp fields key v).map Prod.fst = fields.map Prod.fst := by
  induction fields with
  | nil => simp [lookup] at h
  | cons kv rest ih =>
    obtain ⟨k, w⟩ := kv
    by_cases hk : k = key
    · simp [setProp, hk]
    · simp only [lookup, hk, if_false] at h
      simp [setProp, hk, ih h]

theorem nullish_of_truthy {v : JVal} (h : truthy v = true) : nullish v = false := by
  cases v <;> simp_all [truthy, nullish]

theorem getProp_of_not_nullish (v : JVal) (key : String) (h : nullish v = false) :
    getProp v key = .ok (getPropOpt v key) := by
  cases v with
  | undefined => simp [nullish] at h
  | null => simp [nullish] at h
  | bool b => rfl
  | num n => rfl
  | obj fields => rfl
  | str s =>
    simp only [getProp, getPropOpt]
    split
    · rfl
    · split <;> rfl
  | arr items =>
    simp only [getProp, getPropOpt]
    split
    · rfl
    · split <;> rfl

theorem getPropOpt_obj (fields : List (String × JVal)) (key : String) :
    getPropOpt (.obj fields) key = lookup fields key := rfl

theorem mapJs_forall₂ {α β : Type} (f : α → Js β) :
    ∀ (l : List α) (ys : List β), mapJs f l = .ok ys →
      List.Forall₂ (fun x y => f x = .ok y) l ys := by
  intro l
  induction l with
  | nil =>
    intro ys h
    simp [mapJs, pure, Except.pure] at h
    subst h
    exact List.Forall₂.nil
  | cons x xs ih =>
    intro ys h
    simp only [mapJs, bind, Except.bind] at h
    cases hx : f x with
    | error e => simp [hx] at h
    | ok y =>
      simp only [hx] at h
      cases hxs : mapJs f xs with
      | error e => simp [hxs] at h
      | ok zs =>
        simp only [hxs, pure, Except.pure, Except.ok.injEq] at h
        subst h
        exact List.Forall₂.cons hx (ih zs hxs)

theorem mapJs_total {α β : Type} (f : α → Js β) :
    ∀ (l : List α), (∀ x ∈ l, ∃ y, f x = .ok y) → ∃ ys, mapJs f l = .ok ys := by
  intro l
  induction l with
  | nil => intro _; exact ⟨[], rfl⟩
  | cons x xs ih =>
    intro h
    obtain ⟨y, hy⟩ := h x (List.mem_cons_self _ _)
    obtain ⟨ys, hys⟩ := ih (fun z hz => h z (List.mem_cons_of_mem _ hz))
    exact ⟨y :: ys, by simp [mapJs, bind, Except.bind, hy, hys, pure, Except.pure]⟩

theorem truthy_of_getPropOpt_truthy (v : JVal) (key : String)
    (h : truthy (getPropOpt v key) = true) : truthy v = true := by
  cases v with
  | undefined => simp [getPropOpt, truthy] at h
  | null => simp [getPropOpt, truthy] at h
  | bool b => simp [getPropOpt, getProp, pure, Except.pure, truthy] at h
  | num n => simp [getPropOpt, getProp, pure, Except.pure, truthy] at h
  | arr items => rfl
  | obj fields => rfl
  | str s =>
    by_cases hs : s = ""
    · subst hs
      exfalso
      revert h
      by_cases hk : key = "length"
      · simp [getPropOpt, getProp, hk, pure, Except.pure, truthy, utf16Length]
      · cases hi : arrayIndex key <;>
          simp [getPropOpt, getProp, hk, hi, pure, Except.pure, truthy]
    · simp [truthy, hs]

/-! ## Transformer facts -/

theorem commandersOf_eq (standing : JVal) (h : nullish standing = false) :
    commandersOf standing = .ok (commandersFrom (getPropOpt standing "deckObj")) := by
  unfold commandersOf commandersFrom
  rw [getProp_of_not_nullish _ _ h]
  simp only [bind, Except.bind]
  by_cases hD : truthy (getPropOpt standing "deckObj") = true
  · have hn := nullish_of_truthy hD
    simp only [hD, if_true, getProp_of_not_nullish _ _ hn]
    by_cases h1 : truthy (getPropOpt (getPropOpt standing "deckObj") "Commanders") = true
    · simp [h1, pure, Except.pure]
    · by_cases h2 : truthy (getPropOpt (getPropOpt standing "deckObj") "commanders") = true
      · simp [h1, h2, pure, Except.pure]
      · by_cases h3 : truthy (getPropOpt (getPropOpt standing "deckObj") "Commander") = true
        · simp [h1, h2, h3, pure, Except.pure]
        · by_cases h4 : truthy (getPropOpt (getPropOpt standing "deckObj") "name") = true
          · simp [h1, h2, h3, h4, pure, Except.pure]
          · simp [h1, h2, h3, h4, pure, Except.pure]
  · simp [hD, pure, Except.pure]

theorem transformStanding_eq (standing : JVal) (h : nullish standing = false) :
    transformStanding standing =
      .ok (.obj (setProp (ownProps standing) "commanders"
        (.arr (commandersFrom (getPropOpt standing "deckObj"))))) := by
  simp [transformStanding, commandersOf_eq standing h, bind, Except.bind, pure, Except.pure]

theorem transformRecord_arr (fields : List (String × JVal)) (items : List JVal)
    (h : lookup fields "standings" = .arr items) :
    transformRecord (.obj fields) =
      (mapJs transformStanding items).bind (fun enriched =>
        .ok (.obj (setProp fields "standings" (.arr enriched)),
          .obj (setProp (setProp fields "standings" (.arr enriched)) "data"
            (.obj (setProp (ownProps (lookup fields "data")) "participants"
              (.num items.length)))))) := by
  simp only [transformRecord, getProp, bind, Except.bind, pure, Except.pure, h, truthy, isArray,
    arrayItems, Bool.and_self, if_true]
  cases mapJs transformStanding items with
  | error e => rfl
  | ok enriched =>
    simp only [assignProp, getProp, ownProps]
    rw [lookup_setProp_ne _ _ _ _ (by decide)]

theorem transformRecord_other (fields : List (String × JVal))
    (h : ∀ items, lookup fields "standings" ≠ .arr items) :
    transformRecord (.obj fields) =
      .ok (.obj fields,
        .obj (setProp fields "data"
          (.obj (setProp (ownProps (lookup fields "data")) "participants" (.num 0))))) := by
  have hfalse : (truthy (lookup fields "standings") && isArray (lookup fields "standings"))
      = false := by
    cases hs : lookup fields "standings" <;> simp [truthy, isArray]
    exact absurd hs (h _)
  simp [transformRecord, getProp, bind, Except.bind, pure, Except.pure, hfalse, ownProps]

theorem participantsOf_setProp (fields inner : List (String × JVal)) (n : Int) :
    participantsOf (.obj (setProp fields "data" (.obj (setProp inner "participants" (.num n)))))
      = .ok (.num n) := by
  simp [participantsOf, getProp, bind, Except.bind, pure, Except.pure, lookup_setProp_same]

theorem transformRecord_participants (fields : List (String × JVal)) (mutated out : JVal)
    (h : transformRecord (.obj fields) = .ok (mutated, out)) :
    participantsOf out = .ok (.num (standingsCount (.obj fields))) := by
  cases hs : lookup fields "standings" with
  | arr items =>
    rw [transformRecord_arr fields items hs] at h
    cases hm : mapJs transformStanding items with
    | error e => simp [hm, Except.bind] at h
    | ok enriched =>
      simp only [hm, Except.bind, Except.ok.injEq, Prod.mk.injEq] at h
      rw [← h.2, participantsOf_setProp]
      simp [standingsCount, getPropOpt_obj, hs]
  | _ =>
    rw [transformRecord_other fields (by intro items hi; rw [hs] at hi; cases hi)] at h
    simp only [Except.ok.injEq, Prod.mk.injEq] at h
    rw [← h.2, participantsOf_setProp]
    simp [standingsCount, getPropOpt_obj, hs]

theorem transformRecord_total (fields : List (String × JVal))
    (h : ∀ st ∈ arrayItems (lookup fields "standings"), nullish st = false) :
    ∃ r, transformRecord (.obj fields) = .ok r := by
  cases hs : lookup fields "standings" with
  | arr items =>
    rw [transformRecord_arr fields items hs]
    rw [hs] at h
    obtain ⟨ys, hys⟩ := mapJs_total transformStanding items
      (fun st hst => ⟨_, transformStanding_eq st (h st hst)⟩)
    rw [hys]
    exact ⟨_, rfl⟩
  | _ =>
    rw [transformRecord_other fields (by intro items hi; rw [hs] at hi; cases hi)]
    exact ⟨_, rfl⟩

theorem take_min_two {α : Type} (l : List α) : l.take (min 2 l.length) = l.take 2 := by
  rcases l with _ | ⟨a, _ | ⟨b, l⟩⟩ <;> simp

theorem commandersFrom_length (deckObj : JVal) : (commandersFrom deckObj).length ≤ 2 := by
  unfold commandersFrom
  split_ifs <;> simp [List.length_take]

theorem commandersOf_length (standing : JVal) (cs : List JVal)
    (h : commandersOf standing = .ok cs) : cs.length ≤ 2 := by
  cases hn : nullish standing with
  | true =>
    cases standing <;> simp [nullish] at hn <;>
      simp [commandersOf, getProp, bind, Except.bind, throw, throwThe, MonadExceptOf.throw] at h
  | false =>
    rw [commandersOf_eq standing hn] at h
    simp only [Except.ok.injEq] at h
    rw [← h]
    exact commandersFrom_length _

/-- What one call of the `data.map` callback leaves in, and makes of, a raw
record that is an object. -/
theorem transformRecord_frame (fields : List (String × JVal)) (after out : JVal)
    (h : transformRecord (.obj fields) = .ok (after, out)) :
    (∀ items, lookup fields "standings" = .arr items →
      ∃ enriched, mapJs transformStanding items = .ok enriched ∧
        after = .obj (setProp fields "standings" (.arr enriched))) ∧
    ((∀ items, lookup fields "standings" ≠ .arr items) → after = .obj fields) := by
  constructor
  · intro items hs
    rw [transformRecord_arr fields items hs] at h
    cases hm : mapJs transformStanding items with
    | error e => simp [hm, Except.bind] at h
    | ok enriched =>
      simp only [hm, Except.bind, Except.ok.injEq, Prod.mk.injEq] at h
      exact ⟨enriched, rfl, h.1.symm⟩
  · intro hs
    rw [transformRecord_other fields hs] at h
    simp only [Except.ok.injEq, Prod.mk.injEq] at h
    exact h.1.symm

/-! ## Filter and sort facts -/

theorem nameOf_eq (t : JVal) (h : nullish t = false) : nameOf t = .ok (nameValue t) := by
  simp [nameOf, nameValue, getProp_of_not_nullish _ _ h, bind, Except.bind, pure, Except.pure]

theorem startDateOf_eq (t : JVal) (h : nullish t = false) :
    startDateOf t = .ok (startValue t) := by
  simp [startDateOf, startValue, getProp_of_not_nullish _ _ h, bind, Except.bind, pure,
    Except.pure]

theorem getProp_nullish (t : JVal) (key : String) (h : nullish t = true) :
    ∃ e, getProp t key = .error e := by
  cases t <;> simp [nullish] at h <;> exact ⟨_, rfl⟩

theorem startTime_eq (t : JVal) (h : nullish t = false) :
    startTime t = toNumber (startValue t) := by
  simp [startTime, startDateOf_eq t h, bind, Except.bind]

theorem not_nullish_of_startTime (t : JVal) (n : Int) (h : startTime t = .ok n) :
    nullish t = false := by
  cases hn : nullish t with
  | false => rfl
  | true =>
    obtain ⟨e, he⟩ := getProp_nullish t "data" hn
    simp [startTime, startDateOf, he, bind, Except.bind] at h

theorem not_nullish_of_keep (now : Int) (t : JVal) (b : Bool) (h : keep now t = .ok b) :
    nullish t = false := by
  cases hn : nullish t with
  | false => rfl
  | true =>
    obtain ⟨e, he⟩ := getProp_nullish t "data" hn
    simp [keep, nameOf, he, bind, Except.bind] at h

theorem startKey_eq (t : JVal) (n : Int) (h : startTime t = .ok n) : startKey t = n := by
  simp [startKey, h]

/-- A retained record has a start time, and it is not later than the clock. -/
theorem keep_true (now : Int) (t : JVal) (h : keep now t = .ok true) :
    ∃ n, startTime t = .ok n ∧ n ≤ now := by
  have hn := not_nullish_of_keep now t true h
  rw [startTime_eq t hn]
  simp only [keep, nameOf_eq t hn, startDateOf_eq t hn, bind, Except.bind] at h
  cases hl : callToLowerCase (nameValue t) with
  | error e => simp [hl] at h
  | ok lower =>
    simp only [hl] at h
    by_cases hi : includes lower "cedh" = true
    · simp only [hi, if_true] at h
      cases hnum : toNumber (startValue t) with
      | error e => simp [hnum] at h
      | ok n =>
        simp only [hnum, pure, Except.pure, Except.ok.injEq, decide_eq_true_eq] at h
        exact ⟨n, rfl, h⟩
    · simp [hi, pure, Except.pure] at h

theorem compareDates_eq (a b : JVal) (x y : Int) (ha : startTime a = .ok x)
    (hb : startTime b = .ok y) : compareDates a b = .ok (y - x) := by
  have hna := not_nullish_of_startTime a x ha
  have hnb := not_nullish_of_startTime b y hb
  rw [startTime_eq a hna] at ha
  rw [startTime_eq b hnb] at hb
  simp [compareDates, startDateOf_eq a hna, startDateOf_eq b hnb, bind, Except.bind, ha, hb,
    pure, Except.pure]

theorem insertJs_eq (a : JVal) :
    ∀ (l : List JVal), (∀ t ∈ a :: l, ∃ n, startTime t = .ok n) →
      insertJs compareDates a l = .ok (List.orderedInsert laterFirst a l) := by
  intro l
  induction l with
  | nil => intro _; rfl
  | cons b rest ih =>
    intro h
    obtain ⟨x, hx⟩ := h a (List.mem_cons_self _ _)
    obtain ⟨y, hy⟩ := h b (List.mem_cons_of_mem _ (List.mem_cons_self _ _))
    have hrest : ∀ t ∈ a :: rest, ∃ n, startTime t = .ok n := by
      intro t ht
      rcases List.mem_cons.1 ht with rfl | ht
      · exact ⟨x, hx⟩
      · exact h t (List.mem_cons_of_mem _ (List.mem_cons_of_mem _ ht))
    simp only [insertJs, compareDates_eq a b x y hx hy, bind, Except.bind, ih hrest,
      List.orderedInsert, laterFirst, startKey_eq a x hx, startKey_eq b y hy]
    by_cases hc : y - x ≤ 0
    · have : y ≤ x := by omega
      simp [hc, this, pure, Except.pure]
    · have : ¬ y ≤ x := by omega
      simp [hc, this, pure, Except.pure]

theorem sortJs_eq :
    ∀ (l : List JVal), (∀ t ∈ l, ∃ n, startTime t = .ok n) →
      sortJs compareDates l = .ok (List.insertionSort laterFirst l) := by
  intro l
  induction l with
  | nil => intro _; rfl
  | cons a rest ih =>
    intro h
    have hrest := ih (fun t ht => h t (List.mem_cons_of_mem _ ht))
    simp only [sortJs, hrest, bind, Except.bind, List.insertionSort]
    apply insertJs_eq
    intro t ht
    rcases List.mem_cons.1 ht with rfl | ht
    · exact h _ (List.mem_cons_self _ _)
    · exact h t (List.mem_cons_of_mem _ ((List.perm_insertionSort laterFirst rest).subset ht))

theorem filterJs_eq (now : Int) :
    ∀ (l out : List JVal), filterJs (keep now) l = .ok out → out = l.filter (keepKey now) := by
  intro l
  induction l with
  | nil =>
    intro out h
    simp [filterJs, pure, Except.pure] at h
    simp [h]
  | cons x xs ih =>
    intro out h
    simp only [filterJs, bind, Except.bind] at h
    cases hx : keep now x with
    | error e => simp [hx] at h
    | ok b =>
      simp only [hx] at h
      cases hxs : filterJs (keep now) xs with
      | error e => simp [hxs] at h
      | ok ys =>
        simp only [hxs, pure, Except.pure, Except.ok.injEq] at h
        rw [← h, ih ys hxs]
        cases b <;> simp [List.filter, keepKey, hx]

theorem filterJs_total (now : Int) :
    ∀ (l : List JVal), (∀ x ∈ l, ∃ b, keep now x = .ok b) →
      filterJs (keep now) l = .ok (l.filter (keepKey now)) := by
  intro l
  induction l with
  | nil => intro _; rfl
  | cons x xs ih =>
    intro h
    obtain ⟨b, hb⟩ := h x (List.mem_cons_self _ _)
    have hxs := ih (fun z hz => h z (List.mem_cons_of_mem _ hz))
    simp only [filterJs, bind, Except.bind, hb, hxs, pure, Except.pure]
    cases b <;> simp [List.filter, keepKey, hb]

theorem keepKey_startTime (now : Int) (t : JVal) (h : keepKey now t = true) :
    ∃ n, startTime t = .ok n ∧ n ≤ now := by
  apply keep_true
  unfold keepKey at h
  cases hk : keep now t with
  | error e => simp [hk] at h
  | ok b =>
    simp only [hk] at h
    rw [h]

/-- What the stage returns whenever it returns: the records the callback kept,
sorted latest first by stable insertion. -/
theorem filterSort_eq (now : Int) (data out : List JVal)
    (h : filterSort now data = .ok out) :
    out = List.insertionSort laterFirst (data.filter (keepKey now)) := by
  simp only [filterSort, bind, Except.bind] at h
  cases hf : filterJs (keep now) data with
  | error e => simp [hf] at h
  | ok kept =>
    simp only [hf] at h
    have hk := filterJs_eq now data kept hf
    subst hk
    rw [sortJs_eq] at h
    · simp only [Except.ok.injEq] at h
      exact h.symm
    · intro t ht
      obtain ⟨n, hn, _⟩ := keepKey_startTime now t (List.mem_filter.1 ht).2
      exact ⟨n, hn⟩

theorem filterSort_total (now : Int) (data : List JVal)
    (h : ∀ x ∈ data, ∃ b, keep now x = .ok b) :
    filterSort now data =
      .ok (List.insertionSort laterFirst (data.filter (keepKey now))) := by
  simp only [filterSort, bind, Except.bind, filterJs_total now data h]
  apply sortJs_eq
  intro t ht
  obtain ⟨n, hn, _⟩ := keepKey_startTime now t (List.mem_filter.1 ht).2
  exact ⟨n, hn⟩

theorem orElse_textual (a b : JVal) (ha : textual a = true) (hb : textual b = true) :
    ∃ s, orElse (orElse a b) (.str "") = .str s := by
  cases a <;> cases b <;> simp_all [textual, orElse, truthy] <;> split_ifs <;> simp_all

theorem orElse_numeric (a b : JVal) (ha : numeric a = true) (hb : numeric b = true) :
    ∃ n, orElse (orElse a b) (.num 0) = .num n := by
  cases a <;> cases b <;> simp_all [numeric, orElse, truthy] <;> split_ifs <;> simp_all

theorem wellTyped_shape (t : JVal) (h : wellTyped t = true) :
    nullish t = false ∧ (∃ s, nameValue t = .str s) ∧ (∃ n, startValue t = .num n) := by
  simp only [wellTyped, Bool.and_eq_true, Bool.not_eq_true'] at h
  obtain ⟨⟨⟨⟨h0, h1⟩, h2⟩, h3⟩, h4⟩ := h
  exact ⟨h0, orElse_textual _ _ h1 h2, orElse_numeric _ _ h3 h4⟩

theorem keep_wellTyped (now : Int) (t : JVal) (h : wellTyped t = true) :
    keep now t = .ok (matchesFilter now t) := by
  obtain ⟨hn, ⟨s, hs⟩, ⟨n, hd⟩⟩ := wellTyped_shape t h
  simp only [keep, nameOf_eq t hn, startDateOf_eq t hn, bind, Except.bind, hs, hd,
    callToLowerCase, pure, Except.pure, toNumber, matchesFilter]
  by_cases hi : includes (toLowerCase s) "cedh" = true
  · simp [hi]
  · simp [hi]

theorem keepKey_wellTyped (now : Int) (t : JVal) (h : wellTyped t = true) :
    keepKey now t = matchesFilter now t := by
  simp [keepKey, keep_wellTyped now t h]

theorem filter_keepKey_wellTyped (now : Int) (data : List JVal)
    (h : ∀ t ∈ data, wellTyped t = true) :
    data.filter (keepKey now) = data.filter (matchesFilter now) :=
  List.filter_congr (fun t ht => keepKey_wellTyped now t (h t ht))

theorem laterFirst_chain (l : List JVal) (hs : List.Sorted laterFirst l)
    (hl : ∀ t ∈ l, ∃ n, startTime t = .ok n) :
    List.Chain' (fun a b => ∃ x y, startTime a = .ok x ∧ startTime b = .ok y ∧ y ≤ x) l := by
  apply List.Pairwise.chain'
  refine List.Pairwise.imp_of_mem ?_ hs
  intro a b ha hb hab
  obtain ⟨x, hx⟩ := hl a ha
  obtain ⟨y, hy⟩ := hl b hb
  refine ⟨x, y, hx, hy, ?_⟩
  have h := hab
  unfold laterFirst at h
  rw [startKey_eq a x hx, startKey_eq b y hy] at h
  exact h

theorem orElse_truthy {a b : JVal} (h : truthy a = true) : orElse a b = a := by
  simp [orElse, h]

theorem orElse_falsy {a b : JVal} (h : truthy a = false) : orElse a b = b := by
  simp [orElse, h]

theorem truthy_num {n : Int} (h : n ≠ 0) : truthy (.num n) = true := by
  simp [truthy, h]

/-! ## Handler facts -/

theorem includesChars_iff (pat : List Char) :
    ∀ text : List Char, includesChars text pat = true ↔ pat <:+: text := by
  intro text
  induction text with
  | nil =>
    cases pat <;> simp [includesChars]
  | cons c cs ih =>
    simp only [includesChars, Bool.or_eq_true, ih, List.infix_cons_iff,
      List.isPrefixOf_iff_prefix]

theorem includes_iff (s pat : String) : includes s pat = true ↔ pat.data <:+: s.data :=
  includesChars_iff pat.data s.data

theorem getProp_str_standings (s : String) :
    getProp (.str s) "standings" = .ok .undefined := rfl

theorem debugFirstStanding_str (s : String) : debugFirstStanding (.str s) = .ok () := by
  cases hs : s.data with
  | nil =>
    simp [debugFirstStanding, getProp, utf16Length, hs, greaterThanZero, toNumber, bind,
      Except.bind, pure, Except.pure]
  | cons c cs =>
    have hpos : (0 : Int) < utf16Length s := by
      simp only [utf16Length, hs, List.map_cons, List.sum_cons]
      split <;> omega
    have hfirst : getProp (.str s) "0" = .ok (.str (String.singleton c)) := by
      have hk : arrayIndex "0" = some 0 := by decide
      have hne : ("0" = "length") = False := by decide
      simp only [getProp, hne, if_false, hk, hs, List.map_cons, List.getD_cons_zero]
      rfl
    have hlen : getProp (.str s) "length" = .ok (.num (utf16Length s)) := rfl
    simp [debugFirstStanding, hlen, greaterThanZero, toNumber, bind, Except.bind, pure,
      Except.pure, hpos, hfirst, getProp_str_standings, truthy]

theorem processPayload_plain (clock : Int) (p : JVal) (h : plainPayload p = true) :
    processPayload clock p = .ok p := by
  cases p with
  | undefined => simp [plainPayload] at h
  | null => simp [plainPayload] at h
  | arr items => simp [plainPayload] at h
  | bool b => rfl
  | num n => rfl
  | str s =>
    simp only [processPayload, bind, Except.bind, pure, Except.pure, debugFirstStanding_str]
    rfl
  | obj fields =>
    have hl : lookup fields "length" = .undefined := by
      simp only [plainPayload] at h
      split at h
      · assumption
      · simp at h
    simp [processPayload, debugFirstStanding, getProp, hl, greaterThanZero, bind, Except.bind,
      pure, Except.pure]

theorem handler_hit (s : CacheState) (now clock : Int) (upstream : Upstream)
    (h : cacheHit s now = true) :
    handler s now clock upstream = some ⟨⟨200, s.tournamentCache⟩, s, 0⟩ := by
  simp [handler, h]

theorem handler_miss_calls (s : CacheState) (now clock : Int) (upstream : Upstream)
    (h : cacheHit s now = false) (o : Outcome)
    (ho : handler s now clock upstream = some o) : o.upstreamCalls = 1 := by
  simp only [handler, h, Bool.false_eq_true, if_false] at ho
  cases hf : fetchAndProcess clock upstream with
  | ok data =>
    simp only [hf, Option.some.injEq] at ho
    rw [← ho]
  | error e =>
    cases e with
    | thrown message =>
      simp only [hf, Option.some.injEq] at ho
      rw [← ho]
    | outOfModel => simp [hf] at ho

theorem handler_failure_state (s : CacheState) (now clock : Int) (upstream : Upstream)
    (o : Outcome) (ho : handler s now clock upstream = some o)
    (hfail : o.response.status ≠ 200) : o.state = s := by
  cases hc : cacheHit s now with
  | true =>
    rw [handler_hit s now clock upstream hc, Option.some.injEq] at ho
    rw [← ho]
  | false =>
    simp only [handler, hc, Bool.false_eq_true, if_false] at ho
    cases hf : fetchAndProcess clock upstream with
    | ok data =>
      simp only [hf, Option.some.injEq] at ho
      rw [← ho] at hfail
      exact absurd rfl hfail
    | error e =>
      cases e with
      | thrown message =>
        simp only [hf, Option.some.injEq] at ho
        rw [← ho]
      | outOfModel => simp [hf] at ho

theorem processPayload_arr (clock : Int) (items : List JVal) (d : JVal)
    (h : processPayload clock (.arr items) = .ok d) : ∃ out, d = .arr out := by
  simp only [processPayload, getProp, bind, Except.bind, pure, Except.pure, if_true] at h
  cases ht : transform items with
  | error e => simp [ht] at h
  | ok r =>
    simp only [ht] at h
    cases hd : debugFirstStanding (.arr r.2) with
    | error e => simp [hd] at h
    | ok u =>
      simp only [hd] at h
      cases hf : filterSort (Int.fdiv clock 1000) r.2 with
      | error e => simp [hf] at h
      | ok out =>
        simp only [hf, Except.ok.injEq] at h
        exact ⟨out, h.symm⟩

/-- While the upstream API answers with sequences, the cache slot is the initial
`null` or a stored sequence after every request. -/
theorem handler_keeps_sequence_slot (s : CacheState) (now clock : Int) (upstream : Upstream)
    (o : Outcome)
    (hs : s.tournamentCache = .null ∨ ∃ items, s.tournamentCache = .arr items)
    (hup : ∀ status text payload, upstream = .response status text (.ok payload) →
      ∃ items, payload = .arr items)
    (ho : handler s now clock upstream = some o) :
    o.state.tournamentCache = .null ∨ ∃ items, o.state.tournamentCache = .arr items := by
  cases hc : cacheHit s now with
  | true =>
    rw [handler_hit s now clock upstream hc, Option.some.injEq] at ho
    rw [← ho]
    exact hs
  | false =>
    simp only [handler, hc, Bool.false_eq_true, if_false] at ho
    cases hf : fetchAndProcess clock upstream with
    | error e =>
      cases e with
      | thrown message =>
        simp only [hf, Option.some.injEq] at ho
        rw [← ho]
        exact hs
      | outOfModel => simp [hf] at ho
    | ok data =>
      simp only [hf, Option.some.injEq] at ho
      rw [← ho]
      right
      cases upstream with
      | networkError message =>
        simp [fetchAndProcess, throw, throwThe, MonadExceptOf.throw] at hf
      | response status text json =>
        cases json with
        | error message =>
          simp only [fetchAndProcess] at hf
          split at hf
          · simp [throw, throwThe, MonadExceptOf.throw] at hf
          · cases text <;> simp [throw, throwThe, MonadExceptOf.throw] at hf
        | ok payload =>
          obtain ⟨items, rfl⟩ := hup status text payload rfl
          simp only [fetchAndProcess] at hf
          split at hf
          · exact processPayload_arr clock items data hf
          · cases text <;> simp [throw, throwThe, MonadExceptOf.throw] at hf

/-! ## Claims about the transformer -/

theorem forall₂_participants :
    ∀ (data : List JVal) (pairs : List (JVal × JVal)),
      (∀ r ∈ data, ∃ fields, r = JVal.obj fields) →
      List.Forall₂ (fun x y => transformRecord x = .ok y) data pairs →
      List.Forall₂ (fun raw new => participantsOf new = .ok (.num (standingsCount raw)))
        data (pairs.map Prod.snd) := by
  intro data pairs hobj hall
  induction hall with
  | nil => exact List.Forall₂.nil
  | @cons x y xs ys hxy _ ih =>
    obtain ⟨fields, rfl⟩ := hobj x (List.mem_cons_self _ _)
    refine List.Forall₂.cons ?_ (ih (fun r hr => hobj r (List.mem_cons_of_mem _ hr)))
    exact transformRecord_participants fields y.1 y.2 hxy

theorem transform_ok_iff (data mutated out : List JVal) :
    transform data = .ok (mutated, out) ↔
      ∃ pairs, mapJs transformRecord data = .ok pairs ∧
        mutated = pairs.map Prod.fst ∧ out = pairs.map Prod.snd := by
  unfold transform
  cases h : mapJs transformRecord data with
  | error e => simp [bind, Except.bind]
  | ok pairs =>
    simp only [bind, Except.bind, pure, Except.pure, Except.ok.injEq, Prod.mk.injEq]
    constructor
    · rintro ⟨h1, h2⟩
      exact ⟨pairs, rfl, h1.symm, h2.symm⟩
    · rintro ⟨p, hp, h1, h2⟩
      subst hp
      exact ⟨h1.symm, h2.symm⟩

/-- C1: for a sequence of tournament records that are objects, every record the
transformer produces has `data.participants` equal to the length of the raw
record's `standings` when that is a sequence and to `0` when it is absent or
anything else, whatever `participants` the raw `data` held; and the transformer
does produce its records as soon as no standing is `null`. -/
theorem transform_participants (data : List JVal)
    (hobj : ∀ r ∈ data, ∃ fields, r = JVal.obj fields) :
    (∀ mutated out, transform data = .ok (mutated, out) →
      List.Forall₂ (fun raw new => participantsOf new = .ok (.num (standingsCount raw)))
        data out) ∧
    ((∀ r ∈ data, ∀ st ∈ arrayItems (getPropOpt r "standings"), nullish st = false) →
      ∃ mutated out, transform data = .ok (mutated, out)) := by
  constructor
  · intro mutated out h
    obtain ⟨pairs, hp, _, rfl⟩ := (transform_ok_iff data mutated out).1 h
    exact forall₂_participants data pairs hobj (mapJs_forall₂ _ _ _ hp)
  · intro hst
    obtain ⟨pairs, hp⟩ := mapJs_total transformRecord data (by
      intro r hr
      obtain ⟨fields, rfl⟩ := hobj r hr
      exact transformRecord_total fields (hst _ hr))
    exact ⟨_, _, (transform_ok_iff data _ _).2 ⟨pairs, hp, rfl, rfl⟩⟩

theorem transform_participants_witness :
    (∀ r ∈ [sampleOpen, sampleWeekly], ∃ fields, r = JVal.obj fields) ∧
    (∃ first second, transform [sampleOpen, sampleWeekly] = .ok ([first, sampleWeekly],
        [.obj [("data", .obj [("name", .str "Spring CEDH Open"), ("startDate", .num 1000),
            ("participants", .num 2)]), ("standings", second)],
         .obj [("tournamentName", .str "cEDH Weekly"), ("startDate", .num 500),
            ("data", .obj [("participants", .num 0)])]])) ∧
    (∀ mutated out, transform [sampleOpen, sampleWeekly] = .ok (mutated, out) →
      List.Forall₂ (fun raw new => participantsOf new = .ok (.num (standingsCount raw)))
        [sampleOpen, sampleWeekly] out) :=
  have hobj : ∀ r ∈ [sampleOpen, sampleWeekly], ∃ fields, r = JVal.obj fields := by
    intro r hr
    simp only [List.mem_cons, List.mem_singleton, List.mem_nil_iff, or_false] at hr
    rcases hr with rfl | rfl
    · exact ⟨_, rfl⟩
    · exact ⟨_, rfl⟩
  ⟨hobj, ⟨_, _, rfl⟩, (transform_participants [sampleOpen, sampleWeekly] hobj).1⟩

/-- C2: for every standing (any value other than `null`), the transformer
returns a copy of it whose `commanders` is chosen by first match over the deck
description `deckObj`, where "has X" is the test `if (deckObj.X)` of the code
(X is present and truthy): a truthy `Commanders` gives the first two of its
keys, for a mapping its own keys, whatever the other fields hold; else a truthy
`commanders` gives the first two of its keys; else a truthy `Commander` value
`v` gives `[v]`; else a truthy `name` value `n` gives `[n]`; else, and when
there is no deck description, the list is empty.  The standing with deck
description `{Commander: "Atraxa"}` gets `["Atraxa"]`. -/
theorem commanders_first_match (standing : JVal) (hs : nullish standing = false) :
    ∃ cs,
      commandersOf standing = .ok cs ∧
      transformStanding standing =
        .ok (.obj (setProp (ownProps standing) "commanders" (.arr cs))) ∧
      (∀ m, getPropOpt (getPropOpt standing "deckObj") "Commanders" = .obj m →
        cs = (m.map (fun kv => JVal.str kv.1)).take 2) ∧
      (truthy (getPropOpt (getPropOpt standing "deckObj") "Commanders") = true →
        cs = (objectKeys (getPropOpt (getPropOpt standing "deckObj") "Commanders")).take 2) ∧
      (truthy (getPropOpt (getPropOpt standing "deckObj") "Commanders") = false →
        ∀ m, getPropOpt (getPropOpt standing "deckObj") "commanders" = .obj m →
          cs = (m.map (fun kv => JVal.str kv.1)).take 2) ∧
      (truthy (getPropOpt (getPropOpt standing "deckObj") "Commanders") = false →
        truthy (getPropOpt (getPropOpt standing "deckObj") "commanders") = true →
          cs = (objectKeys (getPropOpt (getPropOpt standing "deckObj") "commanders")).take 2) ∧
      (truthy (getPropOpt (getPropOpt standing "deckObj") "Commanders") = false →
        truthy (getPropOpt (getPropOpt standing "deckObj") "commanders") = false →
        truthy (getPropOpt (getPropOpt standing "deckObj") "Commander") = true →
          cs = [getPropOpt (getPropOpt standing "deckObj") "Commander"]) ∧
      (truthy (getPropOpt (getPropOpt standing "deckObj") "Commanders") = false →
        truthy (getPropOpt (getPropOpt standing "deckObj") "commanders") = false →
        truthy (getPropOpt (getPropOpt standing "deckObj") "Commander") = false →
        truthy (getPropOpt (getPropOpt standing "deckObj") "name") = true →
          cs = [getPropOpt (getPropOpt standing "deckObj") "name"]) ∧
      (truthy (getPropOpt (getPropOpt standing "deckObj") "Commanders") = false →
        truthy (getPropOpt (getPropOpt standing "deckObj") "commanders") = false →
        truthy (getPropOpt (getPropOpt standing "deckObj") "Commander") = false →
        truthy (getPropOpt (getPropOpt standing "deckObj") "name") = false →
          cs = []) ∧
      (getPropOpt standing "deckObj" = .undefined → cs = []) ∧
      (getPropOpt standing "deckObj" = .obj [("Commander", .str "Atraxa")] →
        cs = [.str "Atraxa"]) := by
  have key : ∀ k, truthy (getPropOpt (getPropOpt standing "deckObj") k) = true →
      truthy (getPropOpt standing "deckObj") = true :=
    fun k hk => truthy_of_getPropOpt_truthy _ k hk
  refine ⟨commandersFrom (getPropOpt standing "deckObj"), commandersOf_eq standing hs,
    transformStanding_eq standing hs, ?_, ?_, ?_, ?_, ?_, ?_, ?_, ?_, ?_⟩
  · intro m hm
    have h1 : truthy (getPropOpt (getPropOpt standing "deckObj") "Commanders") = true := by
      rw [hm]; rfl
    have hc : commandersFrom (getPropOpt standing "deckObj") =
        (objectKeys (getPropOpt (getPropOpt standing "deckObj") "Commanders")).take 2 := by
      simp [commandersFrom, key _ h1, h1]
    rw [hc, hm]
    rfl
  · intro h1
    simp [commandersFrom, key _ h1, h1]
  · intro h1 m hm
    have h2 : truthy (getPropOpt (getPropOpt standing "deckObj") "commanders") = true := by
      rw [hm]; rfl
    have hc : commandersFrom (getPropOpt standing "deckObj") =
        (objectKeys (getPropOpt (getPropOpt standing "deckObj") "commanders")).take 2 := by
      simp [commandersFrom, key _ h2, h1, h2]
    rw [hc, hm]
    rfl
  · intro h1 h2
    simp [commandersFrom, key _ h2, h1, h2]
  · intro h1 h2 h3
    simp [commandersFrom, key _ h3, h1, h2, h3]
  · intro h1 h2 h3 h4
    simp [commandersFrom, key _ h4, h1, h2, h3, h4]
  · intro h1 h2 h3 h4
    simp [commandersFrom, h1, h2, h3, h4]
  · intro hD
    simp [commandersFrom, hD, truthy]
  · intro hD
    rw [hD]
    rfl

theorem commanders_first_match_witness :
    nullish (JVal.obj [("deckObj", .obj [("Commander", .str "Atraxa")])]) = false ∧
    transformStanding (JVal.obj [("deckObj", .obj [("Commander", .str "Atraxa")])]) =
      .ok (.obj [("deckObj", .obj [("Commander", .str "Atraxa")]),
        ("commanders", .arr [.str "Atraxa"])]) := by
  refine ⟨rfl, ?_⟩
  obtain ⟨cs, _, h, _, _, _, _, _, _, _, _, hA⟩ :=
    commanders_first_match (JVal.obj [("deckObj", .obj [("Commander", .str "Atraxa")])]) rfl
  rw [h, hA rfl]
  rfl

/-- C3: for every standing whose deck description has a `Commanders` mapping,
the `commanders` computed for it, and stored in the returned copy, is the first
`min 2 n` of the mapping's `n` keys in the mapping's order; three keys
`c1, c2, c3` give `[c1, c2]`, an empty mapping gives the empty list, and no
standing at all gets more than two entries. -/
theorem commanders_first_two (standing : JVal) (mapping : List (String × JVal))
    (hs : nullish standing = false)
    (hm : getPropOpt (getPropOpt standing "deckObj") "Commanders" = .obj mapping) :
    commandersOf standing =
      .ok ((mapping.map (fun kv => JVal.str kv.1)).take (min 2 mapping.length)) ∧
    transformStanding standing =
      .ok (.obj (setProp (ownProps standing) "commanders"
        (.arr ((mapping.map (fun kv => JVal.str kv.1)).take (min 2 mapping.length))))) ∧
    (∀ c1 c2 c3 v1 v2 v3, mapping = [(c1, v1), (c2, v2), (c3, v3)] →
      commandersOf standing = .ok [.str c1, .str c2]) ∧
    (mapping = [] → commandersOf standing = .ok []) ∧
    ((mapping.map (fun kv => JVal.str kv.1)).take (min 2 mapping.length)).length ≤ 2 ∧
    (∀ other cs, commandersOf other = .ok cs → cs.length ≤ 2) := by
  have h1 : truthy (getPropOpt (getPropOpt standing "deckObj") "Commanders") = true := by
    rw [hm]; rfl
  have hD := truthy_of_getPropOpt_truthy _ _ h1
  have hc : commandersFrom (getPropOpt standing "deckObj") =
      (mapping.map (fun kv => JVal.str kv.1)).take (min 2 mapping.length) := by
    have h2 : commandersFrom (getPropOpt standing "deckObj") =
        (objectKeys (getPropOpt (getPropOpt standing "deckObj") "Commanders")).take 2 := by
      simp [commandersFrom, hD, h1]
    rw [h2, hm]
    have h3 := take_min_two (mapping.map (fun kv => JVal.str kv.1))
    rw [List.length_map] at h3
    rw [h3]
    rfl
  have hof := commandersOf_eq standing hs
  rw [hc] at hof
  have hts := transformStanding_eq standing hs
  rw [hc] at hts
  refine ⟨hof, hts, ?_, ?_, ?_, commandersOf_length⟩
  · intro c1 c2 c3 v1 v2 v3 he
    rw [hof, he]
    rfl
  · intro he
    rw [hof, he]
    rfl
  · rw [List.length_take]
    exact Nat.min_le_left _ _ |>.trans (Nat.min_le_left _ _)

theorem commanders_first_two_witness :
    commandersOf (.obj [("deckObj", .obj [("Commanders",
        .obj [("Tymna the Weaver", .obj []), ("Kraum, Ludevic's Opus", .obj []),
          ("Thrasios, Triton Hero", .obj [])])])]) =
      .ok [.str "Tymna the Weaver", .str "Kraum, Ludevic's Opus"] :=
  (commanders_first_two
    (.obj [("deckObj", .obj [("Commanders",
        .obj [("Tymna the Weaver", .obj []), ("Kraum, Ludevic's Opus", .obj []),
          ("Thrasios, Triton Hero", .obj [])])])])
    [("Tymna the Weaver", .obj []), ("Kraum, Ludevic's Opus", .obj []),
          ("Thrasios, Triton Hero", .obj [])] rfl rfl).2.2.1 _ _ _ _ _ _ rfl

/-- C10, as the claim states it, fails: after the transformer ran on the
scenario record, the raw record's `standings` holds the enriched copies, so the
raw record is not what it was. -/
theorem transform_replaces_standings :
    transform [scenarioRecord] = .ok ([scenarioRecordAfter], [scenarioRecordOut]) ∧
    scenarioRecordAfter ≠ scenarioRecord ∧
    getPropOpt scenarioRecordAfter "standings" ≠ getPropOpt scenarioRecord "standings" := by
  refine ⟨rfl, ?_, ?_⟩
  · intro h
    simp [scenarioRecordAfter, scenarioRecord] at h
  · intro h
    simp [scenarioRecordAfter, scenarioRecord, getPropOpt, getProp, lookup, pure,
      Except.pure] at h

/-- C10, amended: the transformer returns a new sequence and changes a raw
record (an object) in one way only.  A raw record whose `standings` is a
sequence has that one field replaced, in place, by the sequence of enriched
copies of its standings, every other field keeping its value and all keys
their order; a raw record whose `standings` is absent or not a sequence is
left exactly as it was. -/
theorem transform_frame (data : List JVal)
    (hobj : ∀ r ∈ data, ∃ fields, r = JVal.obj fields)
    (mutated out : List JVal) (h : transform data = .ok (mutated, out)) :
    List.Forall₂ (fun raw after =>
      (∀ items, getPropOpt raw "standings" = .arr items →
        ∃ enriched, mapJs transformStanding items = .ok enriched ∧
          after = assignProp raw "standings" (.arr enriched) ∧
          (ownProps after).map Prod.fst = (ownProps raw).map Prod.fst ∧
          ∀ key, key ≠ "standings" → getPropOpt after key = getPropOpt raw key) ∧
      ((∀ items, getPropOpt raw "standings" ≠ .arr items) → after = raw)) data mutated := by
  obtain ⟨pairs, hp, rfl, hout⟩ := (transform_ok_iff data mutated out).1 h
  have hall := mapJs_forall₂ _ _ _ hp
  clear hp h hout
  induction hall with
  | nil => exact List.Forall₂.nil
  | @cons x y xs ys hxy _ ih =>
    obtain ⟨fields, rfl⟩ := hobj x (List.mem_cons_self _ _)
    refine List.Forall₂.cons ?_ (ih (fun r hr => hobj r (List.mem_cons_of_mem _ hr)))
    obtain ⟨ha, hb⟩ := transformRecord_frame fields y.1 y.2 hxy
    refine ⟨?_, hb⟩
    intro items hs
    obtain ⟨enriched, he, hafter⟩ := ha items hs
    refine ⟨enriched, he, hafter, ?_, ?_⟩
    · rw [hafter]
      exact setProp_keys fields "standings" _ (by
        rw [getPropOpt_obj] at hs
        rw [hs]
        exact JVal.noConfusion)
    · intro key hk
      rw [hafter, getPropOpt_obj, getPropOpt_obj]
      exact lookup_setProp_ne fields "standings" key _ (Ne.symm hk)

/-! ## Claims about the Filter/Sort stage -/

/-- C4: for records whose names are strings and whose start times are numbers,
and any current time, the Filter/Sort stage returns a result, and that result
is a rearrangement of exactly the input records whose lowercased name
(`data.name`, else `tournamentName`, else `''`) contains `cedh` and whose start
time (`data.startDate`, else `startDate`, else `0`) is at most the current time
in seconds.  No record failing a predicate, so no future-dated record, is in
the output, none passing both is lost or repeated, and an input in which no
record matches, the empty input included, gives the empty sequence.  Here
`else` is the operator of the code, `||`. -/
theorem filterSort_retains (now : Int) (data : List JVal)
    (ht : ∀ t ∈ data, wellTyped t = true) :
    ∃ out, filterSort now data = .ok out ∧
      out.Perm (data.filter (matchesFilter now)) ∧
      (∀ t ∈ out, matchesFilter now t = true ∧ ∃ n, startTime t = .ok n ∧ n ≤ now) ∧
      (∀ t ∈ data, matchesFilter now t = false → t ∉ out) ∧
      ((∀ t ∈ data, matchesFilter now t = false) → out = []) ∧
      (data = [] → out = []) := by
  have htotal := filterSort_total now data
    (fun x hx => ⟨_, keep_wellTyped now x (ht x hx)⟩)
  rw [filter_keepKey_wellTyped now data ht] at htotal
  have hperm := List.perm_insertionSort laterFirst (data.filter (matchesFilter now))
  refine ⟨_, htotal, hperm, ?_, ?_, ?_, ?_⟩
  · intro t hmem
    have hin := List.mem_filter.1 (hperm.subset hmem)
    refine ⟨hin.2, ?_⟩
    apply keepKey_startTime
    rw [keepKey_wellTyped now t (ht t hin.1)]
    exact hin.2
  · intro t _ hfalse hmem
    have hin := List.mem_filter.1 (hperm.subset hmem)
    rw [hfalse] at hin
    exact Bool.false_ne_true hin.2
  · intro hnone
    have hnil : data.filter (matchesFilter now) = [] := by
      rw [List.filter_eq_nil_iff]
      intro t htm
      rw [hnone t htm]
      exact Bool.false_ne_true
    rw [hnil]
    rfl
  · intro hd
    subst hd
    rfl

/-- C5: whatever the Filter/Sort stage returns is sorted by start time,
latest first: for adjacent output records `a`, `b` the start time of `a`
(`data.startDate`, else `startDate`, else `0`) is at least that of `b`.  For
records whose names are strings and whose start times are numbers the stage
does return. -/
theorem filterSort_sorted (now : Int) (data : List JVal) :
    (∀ out, filterSort now data = .ok out →
      List.Chain' (fun a b => ∃ x y, startTime a = .ok x ∧ startTime b = .ok y ∧ y ≤ x) out) ∧
    ((∀ t ∈ data, wellTyped t = true) → ∃ out, filterSort now data = .ok out) := by
  constructor
  · intro out h
    have he := filterSort_eq now data out h
    subst he
    apply laterFirst_chain _ (List.sorted_insertionSort laterFirst _)
    intro t hmem
    have hin := List.mem_filter.1
      ((List.perm_insertionSort laterFirst (data.filter (keepKey now))).subset hmem)
    obtain ⟨n, hn, _⟩ := keepKey_startTime now t hin.2
    exact ⟨n, hn⟩
  · intro ht
    exact ⟨_, filterSort_total now data (fun x hx => ⟨_, keep_wellTyped now x (ht x hx)⟩)⟩

theorem filterSort_retains_witness :
    (∀ t ∈ sampleEvents, wellTyped t = true) ∧
    filterSort 2000 sampleEvents =
      .ok [.obj [("tournamentName", .str "cEDH Weekly"), ("startDate", .num 1500)],
        .obj [("data", .obj [("name", .str "Spring CEDH Open"), ("startDate", .num 1000)])]] ∧
    ∃ out, filterSort 2000 sampleEvents = .ok out ∧
      out.Perm (sampleEvents.filter (matchesFilter 2000)) :=
  have h : ∀ t ∈ sampleEvents, wellTyped t = true := by decide
  ⟨h, rfl, (filterSort_retains 2000 sampleEvents h).imp (fun _ hout => ⟨hout.1, hout.2.1⟩)⟩

theorem filterSort_sorted_witness :
    (∀ t ∈ sampleEvents, wellTyped t = true) ∧
    List.Chain' (fun a b => ∃ x y, startTime a = .ok x ∧ startTime b = .ok y ∧ y ≤ x)
      [JVal.obj [("tournamentName", .str "cEDH Weekly"), ("startDate", .num 1500)],
        .obj [("data", .obj [("name", .str "Spring CEDH Open"), ("startDate", .num 1000)])]] :=
  ⟨by decide, (filterSort_sorted 2000 sampleEvents).1 _ rfl⟩

theorem transform_frame_witness :
    (∀ r ∈ [scenarioRecord], ∃ fields, r = JVal.obj fields) ∧
    List.Forall₂ (fun raw after =>
      (∀ items, getPropOpt raw "standings" = .arr items →
        ∃ enriched, mapJs transformStanding items = .ok enriched ∧
          after = assignProp raw "standings" (.arr enriched) ∧
          (ownProps after).map Prod.fst = (ownProps raw).map Prod.fst ∧
          ∀ key, key ≠ "standings" → getPropOpt after key = getPropOpt raw key) ∧
      ((∀ items, getPropOpt raw "standings" ≠ .arr items) → after = raw))
      [scenarioRecord] [scenarioRecordAfter] :=
  have h : ∀ r ∈ [scenarioRecord], ∃ fields, r = JVal.obj fields := by
    intro r hr
    rw [List.mem_singleton] at hr
    exact ⟨_, hr⟩
  ⟨h, transform_frame [scenarioRecord] h [scenarioRecordAfter] [scenarioRecordOut] rfl⟩

/-- C9, as the claim states it, fails: the record named `cedh` with
`data.startDate = 0` and the top-level `startDate = 5000` has start time `5000`
for the stage, not `0`, and at the current time `1000` it is dropped. -/
theorem zero_startDate_falls_back :
    wellTyped zeroDated = true ∧
    getPropOpt (getPropOpt zeroDated "data") "startDate" = .num 0 ∧
    getPropOpt zeroDated "startDate" = .num 5000 ∧
    startTime zeroDated = .ok 5000 ∧
    keep 1000 zeroDated = .ok false ∧
    filterSort 1000 [zeroDated] = .ok [] :=
  ⟨rfl, rfl, rfl, rfl, rfl, rfl⟩

/-- C9, amended: the start time the Filter/Sort stage compares with the
current time and sorts by is `data.startDate` when that is a number other than
`0`; when `data.startDate` is absent or `0` (or otherwise falsy) it is the
top-level `startDate` if that is a number other than `0`, and `0` when that
one is absent or `0` too.  The filter and the comparator both use this
value. -/
theorem startTime_fallback (t : JVal) (hn : nullish t = false) :
    (∀ n, getPropOpt (getPropOpt t "data") "startDate" = .num n → n ≠ 0 →
      startTime t = .ok n) ∧
    (truthy (getPropOpt (getPropOpt t "data") "startDate") = false →
      ∀ n, getPropOpt t "startDate" = .num n → n ≠ 0 → startTime t = .ok n) ∧
    (getPropOpt (getPropOpt t "data") "startDate" = .num 0 →
      ∀ n, getPropOpt t "startDate" = .num n → startTime t = .ok n) ∧
    (truthy (getPropOpt (getPropOpt t "data") "startDate") = false →
      truthy (getPropOpt t "startDate") = false → startTime t = .ok 0) ∧
    (∀ now s, startTime t = .ok s →
      keep now t = Except.map (fun lower => includes lower "cedh" && decide (s ≤ now))
        (nameOf t >>= callToLowerCase)) ∧
    (∀ u s s', startTime t = .ok s → startTime u = .ok s' →
      compareDates t u = .ok (s' - s)) := by
  refine ⟨?_, ?_, ?_, ?_, ?_, ?_⟩
  · intro n h hne
    have h1 : truthy (getPropOpt (getPropOpt t "data") "startDate") = true := by
      rw [h]; exact truthy_num hne
    rw [startTime_eq t hn, startValue, orElse_truthy h1, orElse_truthy h1, h]
    rfl
  · intro h1 n h hne
    have h2 : truthy (getPropOpt t "startDate") = true := by
      rw [h]; exact truthy_num hne
    rw [startTime_eq t hn, startValue, orElse_falsy h1, orElse_truthy h2, h]
    rfl
  · intro h1 n h
    have hf : truthy (getPropOpt (getPropOpt t "data") "startDate") = false := by
      rw [h1]; rfl
    rw [startTime_eq t hn, startValue, orElse_falsy hf, h]
    by_cases hne : n = 0
    · subst hne
      rfl
    · rw [orElse_truthy (truthy_num hne)]
      rfl
  · intro h1 h2
    rw [startTime_eq t hn, startValue, orElse_falsy h1, orElse_falsy h2]
    rfl
  · intro now s hs
    rw [startTime_eq t hn] at hs
    simp only [keep, nameOf_eq t hn, startDateOf_eq t hn, bind, Except.bind]
    cases hl : callToLowerCase (nameValue t) with
    | error e => rfl
    | ok lower =>
      simp only [hs, Except.map, pure, Except.pure]
      by_cases hi : includes lower "cedh" = true
      · simp [hi]
      · simp [hi]
  · intro u s s' hs hs'
    exact compareDates_eq t u s s' hs hs'

theorem startTime_fallback_witness :
    nullish zeroDated = false ∧ startTime zeroDated = .ok 5000 :=
  ⟨rfl, (startTime_fallback zeroDated rfl).2.2.1 rfl 5000 rfl⟩

/-! ## Claims about the request handler -/

/-- The scenario of the specification, end to end: one record comes back, with
`participants` 1 and `commanders` `["Atraxa"]`, and it is cached. -/
theorem scenario_response :
    handler startState 2000000 2000000 (.response 200 (.ok "") (.ok (.arr [scenarioRecord]))) =
      some ⟨⟨200, .arr [scenarioRecordOut]⟩, ⟨.arr [scenarioRecordOut], 2000000⟩, 1⟩ := rfl

/-- C6: in a state whose cache slot is still the initial `null` or holds a
stored sequence (possibly empty), a request at time `now` is answered from the
cache, with the stored sequence as the body of a 200 response, no upstream call
and the state unchanged, if and only if the slot holds a sequence and
`now - cacheTimestamp < 300000`.  In the start state, and in any state when
`now - cacheTimestamp ≥ 300000`, the request is a miss: every outcome has one
upstream call, and a rejected upstream call shows in the response. -/
theorem cache_hit_iff (s : CacheState) (now clock : Int) (upstream : Upstream)
    (hs : s.tournamentCache = .null ∨ ∃ items, s.tournamentCache = .arr items) :
    (handler s now clock upstream = some ⟨⟨200, s.tournamentCache⟩, s, 0⟩ ↔
      (∃ items, s.tournamentCache = .arr items) ∧ now - s.cacheTimestamp < 300000) ∧
    (300000 ≤ now - s.cacheTimestamp →
      (∀ o, handler s now clock upstream = some o → o.upstreamCalls = 1) ∧
      ∀ message, handler s now clock (.networkError message) =
        some ⟨⟨500, .obj [("error", .str message)]⟩, s, 1⟩) ∧
    ((∀ o, handler startState now clock upstream = some o → o.upstreamCalls = 1) ∧
      ∀ message, handler startState now clock (.networkError message) =
        some ⟨⟨500, .obj [("error", .str message)]⟩, startState, 1⟩) := by
  have hdur : CACHE_DURATION = 300000 := by decide
  refine ⟨⟨?_, ?_⟩, ?_, ?_⟩
  · intro h
    cases hc : cacheHit s now with
    | true =>
      simp only [cacheHit, hdur, Bool.and_eq_true, decide_eq_true_eq] at hc
      refine ⟨?_, hc.2⟩
      rcases hs with hnull | harr
      · rw [hnull] at hc
        simp [truthy] at hc
      · exact harr
    | false =>
      have := handler_miss_calls s now clock upstream hc _ h
      simp at this
  · rintro ⟨⟨items, hitems⟩, hfresh⟩
    apply handler_hit
    simp [cacheHit, hitems, truthy, hdur, hfresh]
  · intro hold
    have hc : cacheHit s now = false := by
      simp only [cacheHit, hdur, Bool.and_eq_false_imp, decide_eq_false_iff_not]
      intro _
      omega
    refine ⟨fun o ho => handler_miss_calls s now clock upstream hc o ho, ?_⟩
    intro message
    simp [handler, hc, fetchAndProcess, throw, throwThe, MonadExceptOf.throw]
  · have hc : cacheHit startState now = false := rfl
    refine ⟨fun o ho => handler_miss_calls startState now clock upstream hc o ho, ?_⟩
    intro message
    simp [handler, hc, fetchAndProcess, throw, throwThe, MonadExceptOf.throw]

theorem cache_hit_iff_witness :
    handler ⟨.arr [], 1000⟩ 300999 300999 (.networkError "unreachable") =
      some ⟨⟨200, .arr []⟩, ⟨.arr [], 1000⟩, 0⟩ ∧
    handler ⟨.arr [], 1000⟩ 301000 301000 (.networkError "unreachable") =
      some ⟨⟨500, .obj [("error", .str "unreachable")]⟩, ⟨.arr [], 1000⟩, 1⟩ :=
  ⟨(cache_hit_iff ⟨.arr [], 1000⟩ 300999 300999 (.networkError "unreachable")
      (Or.inr ⟨[], rfl⟩)).1.2 ⟨⟨[], rfl⟩, by decide⟩,
   ((cache_hit_iff ⟨.arr [], 1000⟩ 301000 301000 (.networkError "unreachable")
      (Or.inr ⟨[], rfl⟩)).2.1 (by decide)).2 "unreachable"⟩

/-- C7: in every cache state, a request that misses the cache and whose
upstream call returns a non-success status `s` with body text `b` is answered
with status 500 and the body `{error: m}`, where `m` is
`TopDeck API error: s - b` and so contains both `s` and `b`, and the cache
state after the request is the state before it.  On every request that fails,
whatever raised the exception, the cache state is unchanged. -/
theorem upstream_error_keeps_cache (s : CacheState) (now clock : Int) (status : Nat)
    (b : String) (json : Except String JVal)
    (hmiss : cacheHit s now = false) (hstatus : statusOk status = false) :
    (∃ m, handler s now clock (.response status (.ok b) json) =
        some ⟨⟨500, .obj [("error", .str m)]⟩, s, 1⟩ ∧
      m = "TopDeck API error: " ++ toString status ++ " - " ++ b ∧
      includes m (toString status) = true ∧ includes m b = true) ∧
    (∀ (s' : CacheState) (now' clock' : Int) (upstream : Upstream) (o : Outcome),
      handler s' now' clock' upstream = some o → o.response.status ≠ 200 → o.state = s') := by
  refine ⟨⟨_, ?_, rfl, ?_, ?_⟩, handler_failure_state⟩
  · simp [handler, hmiss, fetchAndProcess, hstatus, throw, throwThe, MonadExceptOf.throw]
  · rw [includes_iff]
    simp only [String.data_append]
    exact ⟨"TopDeck API error: ".data, " - ".data ++ b.data, by simp⟩
  · rw [includes_iff]
    simp only [String.data_append]
    exact ⟨"TopDeck API error: ".data ++ (toString status).data ++ " - ".data, [], by simp⟩

theorem upstream_error_keeps_cache_witness :
    handler startState 1700000000000 1700000000000
        (.response 429 (.ok "rate limited") (.error "Unexpected token r in JSON")) =
      some ⟨⟨500, .obj [("error", .str "TopDeck API error: 429 - rate limited")]⟩,
        startState, 1⟩ := by
  obtain ⟨⟨m, h, hm, _⟩, _⟩ := upstream_error_keeps_cache startState 1700000000000
    1700000000000 429 "rate limited" (.error "Unexpected token r in JSON") rfl rfl
  rw [h, hm]
  rfl

/-- C8, as the claim states it, fails: a success response whose decoded body is
the object `{message: "maintenance"}` is answered with that very object, not
with an empty result, and one whose decoded body is `null` is answered with
status 500. -/
theorem nonsequence_payload_not_emptied :
    handler startState 5000 5000 (.response 200 (.ok "") (.ok maintenanceNotice)) =
      some ⟨⟨200, maintenanceNotice⟩, ⟨maintenanceNotice, 5000⟩, 1⟩ ∧
    maintenanceNotice ≠ .arr [] ∧
    handler startState 5000 5000 (.response 200 (.ok "") (.ok .null)) =
      some ⟨⟨500, .obj [("error", .str "Cannot read properties of null (reading 'length')")]⟩,
        startState, 1⟩ := by
  refine ⟨rfl, ?_, rfl⟩
  intro h
  simp [maintenanceNotice] at h

/-- C8, amended: for every upstream success response whose decoded body is a
number, a boolean, a string, or an object without a `length` property (such as
`{}`), a request that misses the cache does not raise: no transformation,
filtering or sorting is done, the response is 200 with the decoded body itself,
and that body is stored in the cache. -/
theorem nonsequence_payload_passthrough (s : CacheState) (now clock : Int) (status : Nat)
    (text : Except String String) (payload : JVal)
    (hmiss : cacheHit s now = false) (hstatus : statusOk status = true)
    (hplain : plainPayload payload = true) :
    processPayload clock payload = .ok payload ∧
    handler s now clock (.response status text (.ok payload)) =
      some ⟨⟨200, payload⟩, ⟨payload, now⟩, 1⟩ := by
  have hp := processPayload_plain clock payload hplain
  refine ⟨hp, ?_⟩
  simp [handler, hmiss, fetchAndProcess, hstatus, hp]

theorem nonsequence_payload_passthrough_witness :
    handler startState 5000 5000 (.response 200 (.ok "") (.ok (.obj []))) =
      some ⟨⟨200, .obj []⟩, ⟨.obj [], 5000⟩, 1⟩ :=
  (nonsequence_payload_passthrough startState 5000 5000 200 (.ok "") (.obj [])
    rfl rfl rfl).2

end CEDHTierList
